import Mathlib

/-!
# Verification of the halo2-scaffold examples

A shallow embedding of the witness-generation semantics and of the emitted
constraint systems of the example circuits in `halo2-scaffold`.  All field
elements of the BN254 scalar field `Fr` are modelled as natural numbers
below the prime `p`, and field operations are modelled as arithmetic
modulo `p`.  Fallible witness generation (Rust `assert!`/`panic!`) is
modelled with `Option`; the CLI pipeline with `Except`.
-/

namespace Halo2Scaffold

/-- The modulus of the BN254 scalar field `Fr`, the field used by every
example circuit (`halo2curves::bn256::Fr`). -/
def p : Nat := 21888242871839275222246405745257275088548364400416034343698204186575808495617

theorem p_pos : 0 < p := by decide

theorem one_lt_p : 1 < p := by decide

/-- Field addition: `GateChip::add` computes `a + b` in `Fr`. -/
def fieldAdd (a b : Nat) : Nat := (a + b) % p

/-- Field multiplication: `GateChip::mul` computes `a * b` in `Fr`. -/
def fieldMul (a b : Nat) : Nat := a * b % p

/-- Field subtraction: `GateChip::sub` computes `a - b` in `Fr`
(wrapping around the modulus). -/
def fieldSub (a b : Nat) : Nat := (a + (p - b % p)) % p

/-- Field `mul_add`: `GateChip::mul_add` computes `a * b + c` in `Fr`. -/
def fieldMulAdd (a b c : Nat) : Nat := (a * b + c) % p

/-! ## `examples/int_div.rs` (`int_div_32`)

The circuit loads a witness `x`, computes `quot = x / 32`, `rem = x % 32`
natively, range-checks **both `quot` and `rem` to 5 bits**, constrains
`quot * 32 + rem = x` (in `Fr`, via `mul_add` and `constrain_equal`), and
exposes `x` and `quot` as public values. -/

/-- The constraint system emitted by `int_div_32` on input cell `x`, with
witness cells `quot` and `rem` (the two freshly loaded witnesses):
`range.range_check(ctx, quot, 5)`, `range.range_check(ctx, rem, 5)`, and
`constrain_equal(x, mul_add(quot, 32, rem))`. -/
def intDiv32Constraints (x quot rem : Nat) : Prop :=
  quot < 2 ^ 5 ∧ rem < 2 ^ 5 ∧ fieldMulAdd quot 32 rem = x % p

instance (x quot rem : Nat) : Decidable (intDiv32Constraints x quot rem) := by
  unfold intDiv32Constraints; infer_instance

/-- The witness values `int_div_32` computes natively for input `x`
(`x_u32 = x.value().get_lower_32()`, `quot = x_u32 / 32`, `rem = x_u32 % 32`). -/
def intDiv32Witness (x : Nat) : Nat × Nat := ((x % 2 ^ 32) / 32, (x % 2 ^ 32) % 32)

/-- **C1.**  The 16-bit division round-trip claim fails on the code: at the
16-bit input `x = 1024` the constraint system emitted by `int_div_32` is
unsatisfiable, because the circuit range-checks the quotient to 5 bits
(`range.range_check(ctx, quot, 5)`), so `quot * 32 + rem ≤ 31 * 32 + 31 < 1024`
for every assignment.  The header comment of `int_div.rs` promises inputs up
to 16 bits; the 5-bit check contradicts it (the sibling file
`int_div_underconstrained.rs` documents the needed bound as 11 bits). -/
theorem intDiv32_unsat_at_1024 : ¬ ∃ quot rem, intDiv32Constraints 1024 quot rem := by
  rintro ⟨quot, rem, hq, hr, heq⟩
  have h1024 : (1024 : Nat) % p = 1024 := by decide
  have hlt : quot * 32 + rem < p := by
    have : quot * 32 + rem < 1056 := by omega
    have : (1056 : Nat) < p := by decide
    omega
  rw [fieldMulAdd, Nat.mod_eq_of_lt hlt, h1024] at heq
  omega

/-! ## `examples/int_div_underconstrained.rs` (`int_div_32`, unsound variant)

This variant skips the quotient range check.  It witnesses `rem = 0` and
`quot = x * 32⁻¹` in `Fr`, constrains only `rem < 32`
(`check_less_than_safe`) and `quot * 32 + rem = x` in `Fr`. -/

/-- The inverse of `32` in `Fr`: `F::from(32).invert()`. -/
def inv32 : Nat := (1 + 31 * p) / 32

theorem inv32_spec : 32 * inv32 % p = 1 := by decide

/-- The constraint system emitted by the under-constrained `int_div_32`
variant on input cell `x` with witness cells `quot`, `rem`:
`range.check_less_than_safe(ctx, rem, 32)` and
`constrain_equal(x, mul_add(quot, 32, rem))`.  No constraint mentions
`quot` other than the multiplication. -/
def intDiv32UnderConstraints (x quot rem : Nat) : Prop :=
  rem < 32 ∧ fieldMulAdd quot 32 rem = x % p

instance (x quot rem : Nat) : Decidable (intDiv32UnderConstraints x quot rem) := by
  unfold intDiv32UnderConstraints; infer_instance

/-- The witness values the under-constrained variant assigns:
`rem = 0`, `quot = x * 32⁻¹` in `Fr`. -/
def intDiv32UnderWitness (x : Nat) : Nat × Nat := (x * inv32 % p, 0)

/-- **C2.**  For every field value `x` the under-constrained variant's
constraints are satisfied by the field-wrapped witnesses `rem = 0` and
`quot = x * 32⁻¹ mod p`; and whenever `32` does not divide `x`, that
satisfying `quot` is *not* the integer quotient `⌊x / 32⌋`. -/
theorem intDiv32Under_accepts_wrapped (x : Nat) (hx : x < p) :
    intDiv32UnderConstraints x (x * inv32 % p) 0 ∧
      (¬ 32 ∣ x → x * inv32 % p ≠ x / 32) := by
  have hmul : fieldMulAdd (x * inv32 % p) 32 0 = x % p := by
    unfold fieldMulAdd
    rw [Nat.add_zero, Nat.mod_mul_mod, Nat.mul_assoc, Nat.mul_comm inv32 32,
      Nat.mul_mod, inv32_spec, Nat.mul_one, Nat.mod_mod_of_dvd _ dvd_rfl]
  refine ⟨⟨by omega, hmul⟩, ?_⟩
  intro hndvd heq
  rw [heq] at hmul
  unfold fieldMulAdd at hmul
  rw [Nat.add_zero, Nat.mod_eq_of_lt hx] at hmul
  have hle : x / 32 * 32 ≤ x := Nat.div_mul_le_self x 32
  rw [Nat.mod_eq_of_lt (lt_of_le_of_lt hle hx)] at hmul
  exact hndvd (Dvd.intro (x / 32) (by omega))

theorem intDiv32Under_accepts_wrapped_witness :
    33 < p ∧
      (intDiv32UnderConstraints 33 (33 * inv32 % p) 0 ∧
        (¬ 32 ∣ 33 → 33 * inv32 % p ≠ 33 / 32)) :=
  ⟨by decide, intDiv32Under_accepts_wrapped 33 (by decide)⟩

/-! ## `examples/halo2_lib.rs` and `examples/builder.rs` (`some_algorithm_in_zk`)

The `halo2_lib.rs` variant loads a private `x`, computes `x² + 72` three
ways (via `mul`/`add`, and via a single `assign_region` row enforcing
`72 + x * x = val`), but never pushes anything onto a public-instance list:
its `mock()` runs `MockProver::run(k, &circuit, vec![])` with no instances.
The `builder.rs` variant additionally does `make_public.push(x)` and
`make_public.push(out)` for `out = x² + 72`. -/

/-- Witness generation of `some_algorithm_in_zk` in `examples/halo2_lib.rs`:
returns the list of public instances exposed by the circuit (none) together
with the computed value `x² + 72` in `Fr` (the cell constrained by the
`72 + x * x = val` custom-gate row). -/
def someAlgorithmInZk (x : Nat) : List Nat × Nat :=
  let xv := x % p
  let xSq := fieldMul xv xv
  let _out := fieldAdd xSq 72
  let val := (xv * xv + 72) % p
  ([], val)

/-- Witness generation of `some_algorithm_in_zk` in `examples/builder.rs`:
the same computation, but `x` and `out = x² + 72` are pushed as public
instances (in that order). -/
def someAlgorithmInZkBuilder (x : Nat) : List Nat × Nat :=
  let xv := x % p
  let xSq := fieldMul xv xv
  let out := fieldAdd xSq 72
  ([xv, out], out)

/-- **C6, counterexample.**  The claim fails as stated: for input `x = 3`
the `halo2_lib.rs` circuit exposes *no* public output at all (it never
pushes to any instance list and its mock prover runs with `vec![]`
instances), so in particular `81` is not among its public outputs. -/
theorem someAlgorithmInZk_no_public_output :
    (someAlgorithmInZk 3).1 = [] ∧ 81 ∉ (someAlgorithmInZk 3).1 := by
  constructor <;> decide

/-- **C6, amended.**  For the literal input `x = 3` the computed (and
gate-constrained) output value of `some_algorithm_in_zk` equals `81` in
both variants, and the `builder.rs` variant of the same example exposes
`x = 3` and `out = 81` as its public values, while the `halo2_lib.rs`
variant exposes none. -/
theorem someAlgorithmInZk_computes_81 :
    (someAlgorithmInZk 3).2 = 81 ∧ (someAlgorithmInZk 3).1 = [] ∧
      someAlgorithmInZkBuilder 3 = ([3, 81], 81) := by
  refine ⟨?_, ?_, ?_⟩ <;> decide

/-! ## `src/scaffold/mod.rs` (`run_builder`)

`run_builder` opens the input file and deserializes it *before* invoking
the circuit-building closure: `File::open(..).unwrap_or_else(|| panic!)`
followed by `serde_json::from_reader(..).expect(..)`, and only then
`run_builder_on_inputs(f, cli, private_inputs)`.  We model the raw file
contents as `Option String` (`none` = file missing), JSON deserialization
as a `parse` function, and the whole downstream pipeline (witness
generation, circuit construction, key/proof artifacts) as an opaque
`build` function that is applied only after decoding succeeds. -/

/-- Input decoding of `run_builder`: missing file and undeserializable
contents each abort with a diagnostic, mirroring the two panic sites. -/
def decodeInput {T : Type} (raw : Option String) (parse : String → Option T) :
    Except String T :=
  match raw with
  | none => .error "Input file not found"
  | some s =>
    match parse s with
    | none => .error "Input file should be a valid JSON file"
    | some t => .ok t

/-- `run_builder`: decode the input, then (and only then) run the
circuit-building closure and the requested CLI command, producing the
run's artifacts.  `build` stands for
`run_builder_on_inputs(f, cli, private_inputs)` — everything that assigns
witnesses, constructs the circuit and writes keys/proofs. -/
def runBuilder {T A : Type} (raw : Option String) (parse : String → Option T)
    (build : T → A) : Except String A :=
  match decodeInput raw parse with
  | .error e => .error e
  | .ok t => .ok (build t)

/-- **C7.**  Whenever input decoding fails (missing file or malformed
JSON), `run_builder` terminates with exactly that diagnostic: the
circuit-building pipeline `build` is never applied, so no witness, circuit,
key or proof artifact is produced. -/
theorem runBuilder_aborts_on_malformed_input {T A : Type}
    (raw : Option String) (parse : String → Option T) (build : T → A)
    (e : String) (herr : decodeInput raw parse = .error e) :
    runBuilder raw parse build = .error e := by
  unfold runBuilder
  rw [herr]

theorem runBuilder_aborts_on_malformed_input_witness :
    decodeInput (T := Nat) none (fun _ => none) = .error "Input file not found" ∧
      runBuilder (T := Nat) (A := Nat) none (fun _ => none) (fun t => t + 1) =
        .error "Input file not found" :=
  ⟨rfl, runBuilder_aborts_on_malformed_input none (fun _ => none) (fun t => t + 1)
    "Input file not found" rfl⟩

/-! ## `examples/barrel_shift.rs` (`var_subarray`)

The circuit loads `arr` (1000 cells), `start`, `end`; decomposes `start`
into 10 bits (`num_to_bits`, which asserts each bit boolean and constrains
their weighted sum to `start`); then for each bit `d` runs an **in-place**
pass `arr[i] = select(arr[i + 2^d] or 0, arr[i], bit_d)` for `i = 0..999`;
loads a mask witness `mask[i] = (i < end - start)`; asserts `mask[i]`
boolean for `i = 1..999` **only** (not `i = 0`) and replaces
`mask[i] := and(mask[i], mask[i-1])`; constrains `sum(mask) = end - start`;
finally outputs `arr[i] * mask[i]`. -/

/-- One in-place shift pass, positions `0..j-1` processed.  Position `i`
is updated to `select(shift, arr[i], bit)` where
`shift = arr[i + t]` if `i + t < n` else the constant `0`
(`t = 2^d`); reads of `arr[i + t]` see the array as already updated at
positions below `j`, exactly as the sequential Rust loop does. -/
def shiftRoundAux (n t : Nat) (b : Bool) (a : Nat → Nat) : Nat → Nat → Nat
  | 0 => a
  | j + 1 =>
    let a' := shiftRoundAux n t b a j
    fun i =>
      if i = j then (if b then (if j + t < n then a' (j + t) else 0) else a' j)
      else a' i

/-- A full in-place pass of the inner `for i in 0..1000` loop. -/
def shiftRound (n t : Nat) (b : Bool) (a : Nat → Nat) : Nat → Nat :=
  shiftRoundAux n t b a n

/-- The outer `for (d, bit) in bits.into_iter().enumerate()` loop:
`d` passes with shift amounts `2^0, …, 2^(d-1)`, controlled by `bit`. -/
def shiftRounds (n : Nat) (bit : Nat → Bool) (a : Nat → Nat) : Nat → Nat → Nat
  | 0 => a
  | d + 1 => shiftRound n (2 ^ d) (bit d) (shiftRounds n bit a d)

theorem shiftRoundAux_ge (n t : Nat) (b : Bool) (a : Nat → Nat) :
    ∀ j i, j ≤ i → shiftRoundAux n t b a j i = a i := by
  intro j
  induction j with
  | zero => intro i _; rfl
  | succ j ih =>
    intro i hji
    simp only [shiftRoundAux]
    rw [if_neg (by omega)]
    exact ih i (by omega)

theorem shiftRoundAux_lt (n t : Nat) (b : Bool) (a : Nat → Nat) :
    ∀ j i, i < j → shiftRoundAux n t b a j i =
      (if b then (if i + t < n then a (i + t) else 0) else a i) := by
  intro j
  induction j with
  | zero => intro i hi; omega
  | succ j ih =>
    intro i hi
    simp only [shiftRoundAux]
    by_cases hij : i = j
    · subst hij
      rw [if_pos rfl, shiftRoundAux_ge n t b a i i le_rfl,
        shiftRoundAux_ge n t b a i (i + t) (by omega)]
    · rw [if_neg hij]
      exact ih i (by omega)

theorem shiftRound_spec (n t : Nat) (b : Bool) (a : Nat → Nat) (i : Nat) (hi : i < n) :
    shiftRound n t b a i =
      (if b then (if i + t < n then a (i + t) else 0) else a i) :=
  shiftRoundAux_lt n t b a n i hi

/-- After processing bit passes `0..d-1` with the honest bit witnesses of
`s` (`num_to_bits`), the array is shifted left by `s % 2^d`, zero-padded. -/
theorem shiftRounds_spec (n s : Nat) (a : Nat → Nat) :
    ∀ d i, i < n → shiftRounds n (Nat.testBit s) a d i =
      (if i + s % 2 ^ d < n then a (i + s % 2 ^ d) else 0) := by
  intro d
  induction d with
  | zero =>
    intro i hi
    simp only [shiftRounds, pow_zero, Nat.mod_one, Nat.add_zero]
    rw [if_pos hi]
  | succ d ih =>
    intro i hi
    have hmul : s % 2 ^ (d + 1) = s % 2 ^ d + 2 ^ d * (s / 2 ^ d % 2) := by
      rw [pow_succ, Nat.mod_mul]
    have hbit : Nat.testBit s d = decide (s / 2 ^ d % 2 = 1) := Nat.testBit_to_div_mod
    simp only [shiftRounds]
    rw [shiftRound_spec n (2 ^ d) (Nat.testBit s d) _ i hi]
    cases hb : Nat.testBit s d with
    | false =>
      have hdec : decide (s / 2 ^ d % 2 = 1) = false := by rw [← hbit, hb]
      have h2 : s / 2 ^ d % 2 = 0 := by
        rcases Nat.mod_two_eq_zero_or_one (s / 2 ^ d) with h | h
        · exact h
        · rw [h] at hdec; simp at hdec
      simp only [Bool.false_eq_true, if_false]
      rw [hmul, h2, Nat.mul_zero, Nat.add_zero]
      exact ih i hi
    | true =>
      have hdec : decide (s / 2 ^ d % 2 = 1) = true := by rw [← hbit, hb]
      have h2 : s / 2 ^ d % 2 = 1 := of_decide_eq_true hdec
      have heq : s % 2 ^ (d + 1) = s % 2 ^ d + 2 ^ d := by
        rw [hmul, h2, Nat.mul_one]
      simp only [eq_self_iff_true, if_true]
      by_cases h1 : i + 2 ^ d < n
      · rw [if_pos h1, ih (i + 2 ^ d) h1,
          show i + 2 ^ d + s % 2 ^ d = i + s % 2 ^ (d + 1) from by omega]
      · rw [if_neg h1, if_neg (show ¬ i + s % 2 ^ (d + 1) < n from by omega)]

/-- The honest mask witness assigned by `var_subarray`:
`mask[i] = (i < end - start)` as a field element. -/
def maskWitness (L i : Nat) : Nat := if i < L then 1 else 0

/-- The running-`and` pass over the mask:
`mask[0]` stays the raw loaded witness, `mask[i] = and(mask[i], mask[i-1])`
for `i ≥ 1` (`and` is a field multiplication). -/
def andChain (m : Nat → Nat) : Nat → Nat
  | 0 => m 0
  | i + 1 => fieldMul (m (i + 1)) (andChain m i)

theorem andChain_maskWitness (L : Nat) :
    ∀ i, andChain (maskWitness L) i = (if i < L then 1 else 0) := by
  intro i
  induction i with
  | zero => rfl
  | succ i ih =>
    simp only [andChain, maskWitness, ih, fieldMul]
    by_cases h : i + 1 < L
    · rw [if_pos h, if_pos (by omega), Nat.one_mul, Nat.mod_eq_of_lt one_lt_p]
    · rw [if_neg h, Nat.zero_mul, Nat.zero_mod]

/-- The output entries of `var_subarray` under honest witness generation:
`out[i] = mul(arr[i], mask[i])` after the shift passes and the mask pass. -/
def varSubarrayOut (a : Nat → Nat) (s e i : Nat) : Nat :=
  fieldMul (shiftRounds 1000 (Nat.testBit s) a 10 i) (andChain (maskWitness (e - s)) i)

/-- **C3.**  For every array of field elements, all `start ≤ end ≤ 1000`
and every output position `i`, the barrel-shift-then-mask computation of
`var_subarray` produces `arr[start + i]` at the first `end - start`
positions and `0` everywhere else. -/
theorem varSubarray_correct (a : Nat → Nat) (s e i : Nat)
    (ha : ∀ j, a j < p) (hse : s ≤ e) (he : e ≤ 1000) (hi : i < 1000) :
    varSubarrayOut a s e i = (if i < e - s then a (s + i) else 0) := by
  have hs : s < 2 ^ 10 := by omega
  unfold varSubarrayOut
  rw [shiftRounds_spec 1000 s a 10 i hi, Nat.mod_eq_of_lt hs, andChain_maskWitness]
  by_cases hiL : i < e - s
  · rw [if_pos hiL, if_pos hiL, if_pos (by omega)]
    simp only [fieldMul, Nat.mul_one]
    rw [Nat.mod_eq_of_lt (ha (i + s)), Nat.add_comm i s]
  · rw [if_neg hiL, if_neg hiL]
    simp only [fieldMul, Nat.mul_zero, Nat.zero_mod]

theorem varSubarray_correct_witness :
    (∀ j : Nat, (if j = 0 then 7 else 3) < p) ∧ 5 ≤ 10 ∧ 10 ≤ 1000 ∧ 2 < 1000 ∧
      varSubarrayOut (fun j => if j = 0 then 7 else 3) 5 10 2 =
        (if 2 < 10 - 5 then (fun j : Nat => if j = 0 then 7 else 3) (5 + 2) else 0) :=
  ⟨fun j => by show (if j = 0 then 7 else 3) < p; split <;> decide, by decide, by decide, by decide,
    varSubarray_correct (fun j => if j = 0 then 7 else 3) 5 10 2
      (fun j => by show (if j = 0 then 7 else 3) < p; split <;> decide) (by decide) (by decide) (by decide)⟩

/-! ### The emitted constraint system of `var_subarray` (claim C9)

The free witnesses of the constraint system are the public inputs
(`arr`, `start`, `end`), the ten bit cells produced by `num_to_bits`
(each constrained boolean by `num_to_bits` itself, so modelled as `Bool`),
and the 1000 raw mask cells `m`.  Every other cell is determined by the
gate that created it (`select`, `and`, `mul`, `sub`, `sum` outputs).
The constraints that relate the free witnesses are:
the `num_to_bits` recomposition `Σ bits[d]·2^d = start`;
`assert_bit(mask[i])` for `i = 1..999` **only**;
and `constrain_equal(sub(end, start), sum(mask))`.
`mask[0]` carries no constraint at all. -/

/-- The `num_to_bits` inner-product recomposition value `Σ bits[d]·2^d`. -/
def bitsRecompose (b : Nat → Bool) : Nat → Nat
  | 0 => 0
  | d + 1 => fieldAdd (bitsRecompose b d) (if b d then 2 ^ d else 0)

/-- The running field sum of `gate.sum` over cells `f 0, …, f (k-1)`. -/
def sumChain (f : Nat → Nat) : Nat → Nat
  | 0 => 0
  | k + 1 => fieldAdd (sumChain f k) (f k)

/-- All constraints of `var_subarray` that relate the free witness cells
(array/start/end public inputs, bit cells `b`, raw mask cells `m`).
Note the `assert_bit` loop starts at `i = 1`, exactly as in the source. -/
def varSubarraySat (s e : Nat) (b : Nat → Bool) (m : Nat → Nat) : Prop :=
  bitsRecompose b 10 = s % p ∧
  (∀ i, i < 1000 → 1 ≤ i → (m i = 0 ∨ m i = 1)) ∧
  sumChain (andChain m) 1000 = fieldSub e s

instance (s e : Nat) (b : Nat → Bool) (m : Nat → Nat) :
    Decidable (varSubarraySat s e b m) := by
  unfold varSubarraySat; infer_instance

/-- The output cells of `var_subarray` as determined by the emitted
`select`/`and`/`mul` gates from the free witnesses. -/
def varSubarraySatOut (a : Nat → Nat) (b : Nat → Bool) (m : Nat → Nat) (i : Nat) : Nat :=
  fieldMul (shiftRounds 1000 b a 10 i) (andChain m i)

/-- A dishonest mask assignment: `mask[0] = 2` (a non-boolean field value),
all other mask cells `0`. -/
def badMask : Nat → Nat := fun i => if i = 0 then 2 else 0

theorem andChain_badMask : ∀ i, andChain badMask i = (if i = 0 then 2 else 0) := by
  intro i
  induction i with
  | zero => rfl
  | succ i ih =>
    simp only [andChain, ih, badMask, fieldMul]
    rw [if_neg (Nat.succ_ne_zero i), Nat.zero_mul, Nat.zero_mod]

theorem sumChain_andChain_badMask : ∀ k, 1 ≤ k → sumChain (andChain badMask) k = 2 := by
  intro k
  induction k with
  | zero => omega
  | succ k ih =>
    intro _
    rcases Nat.eq_zero_or_pos k with hk | hk
    · subst hk
      simp only [sumChain, fieldAdd, andChain_badMask]
      decide
    · simp only [sumChain, fieldAdd, ih hk, andChain_badMask, if_neg (by omega : ¬ k = 0),
        Nat.add_zero]
      exact Nat.mod_eq_of_lt (by decide)

theorem shiftRounds_false (n : Nat) (a : Nat → Nat) :
    ∀ d i, i < n → shiftRounds n (fun _ => false) a d i = a i := by
  intro d
  induction d with
  | zero => intro i _; rfl
  | succ d ih =>
    intro i hi
    simp only [shiftRounds]
    rw [shiftRound_spec n (2 ^ d) false _ i hi]
    exact ih i hi

theorem bitsRecompose_false : ∀ d, bitsRecompose (fun _ => false) d = 0 := by
  intro d
  induction d with
  | zero => rfl
  | succ d ih => simp only [bitsRecompose, ih, fieldAdd, if_neg Bool.false_ne_true]; rfl

/-- **C9.**  The bit-assertion loop skips `mask[0]`: for the input
`arr = [1, 1, …]`, `start = 0`, `end = 2` (so `end - start = 2`) there is a
satisfying assignment of every emitted constraint of `var_subarray` in
which `mask[0] = 2 ∉ {0, 1}`, the masked-sum check still holds
(`sum(mask) = 2 = end - start`), and the first output entry is
`mask[0] · arr[start] = 2 ≠ 1 = arr[start]`. -/
theorem varSubarray_mask0_exploitable :
    varSubarraySat 0 2 (fun _ => false) badMask ∧
      (badMask 0 ≠ 0 ∧ badMask 0 ≠ 1) ∧
      varSubarraySatOut (fun _ => 1) (fun _ => false) badMask 0 = 2 ∧
      (2 : Nat) ≠ 1 := by
  refine ⟨⟨?_, ?_, ?_⟩, ⟨by decide, by decide⟩, ?_, by decide⟩
  · rw [bitsRecompose_false, Nat.zero_mod]
  · intro i _ h1
    left
    unfold badMask
    rw [if_neg (by omega)]
  · rw [sumChain_andChain_badMask 1000 (by omega)]
    decide
  · unfold varSubarraySatOut
    rw [shiftRounds_false 1000 _ 10 0 (by omega), andChain_badMask]
    decide

/-! ## `examples/cario.rs` (toy Cairo VM, `state_transition`)

Witness-generation semantics of one VM step.  `gate.select_from_idx`
evaluates to the list entry at the index (or `0` when the index is out of
range, since the one-hot indicator is all-zero there); `gate.select` with a
boolean condition picks its first argument when the condition is `1`.
Rust `assert!` failures during witness generation are modelled as `none`;
the `assert_is_const` calls in `compute_next_ap_fp` emit constraints but do
not abort witness generation, so they do not appear in the `Option` flow. -/

/-- `gate.select_from_idx`: the entry of `l` at index `idx`, or `0` when
`idx ≥ l.length`. -/
def selIdx (l : List Nat) (idx : Nat) : Nat := l.getD idx 0

/-- Bits `a..b` (exclusive) of the 63-bit decomposition of `x`:
`bit_slice(ctx, gate, bits, a, b)` recombined with powers of two. -/
def bitSlice (x a b : Nat) : Nat := x / 2 ^ a % 2 ^ (b - a)

/-- `bias`: recenter a `[0, 2^16)` offset to `[-2^15, 2^15)` by subtracting
`2^15` in the field. -/
def bias (x : Nat) : Nat := fieldSub x (2 ^ 15)

/-- The decoded instruction word (`decode_instruction`). -/
structure DecodedInstruction where
  off_dst : Nat
  off_op0 : Nat
  off_op1 : Nat
  dst_reg : Nat
  op0_reg : Nat
  op1_src : Nat
  res_logic : Nat
  pc_update : Nat
  ap_update : Nat
  op_code : Nat

/-- `decode_instruction`: 63-bit decomposition of the instruction word,
then the fixed bit slices, with the three offsets biased. -/
def decodeInstruction (instr : Nat) : DecodedInstruction where
  off_dst := bias (bitSlice instr 0 16)
  off_op0 := bias (bitSlice instr 16 32)
  off_op1 := bias (bitSlice instr 32 48)
  dst_reg := bitSlice instr 48 49
  op0_reg := bitSlice instr 49 50
  op1_src := bitSlice instr 50 53
  res_logic := bitSlice instr 53 55
  pc_update := bitSlice instr 55 58
  ap_update := bitSlice instr 58 60
  op_code := bitSlice instr 60 63

/-- `read_memory`: `select_from_idx` over the whole memory. -/
def readMemory (mem : List Nat) (addr : Nat) : Nat := selIdx mem addr

/-- `compute_op0`: read at `ap + off_op0` or `fp + off_op0` selected by the
single-bit `op0_reg`. -/
def computeOp0 (mem : List Nat) (op0_reg ap fp off_op0 : Nat) : Nat :=
  let op0_0 := readMemory mem (fieldAdd ap off_op0)
  let op0_1 := readMemory mem (fieldAdd fp off_op0)
  if op0_reg = 1 then op0_1 else op0_0

/-- `compute_op1_and_instruction_size`: asserts `op1_src ≠ 3 ∧ op1_src ≤ 4`
(panicking otherwise), then selects `op1` and the instruction size from the
five-entry tables (index 3 holds the `Witness(F::zero())` entries marked
`undefined behavior` in the source). -/
def computeOp1AndSize (mem : List Nat) (op1_src op0 off_op1 fp ap pc : Nat) :
    Option (Nat × Nat) :=
  if op1_src = 3 ∨ 4 < op1_src then none
  else
    let op1 := selIdx [readMemory mem (fieldAdd op0 off_op1),
      readMemory mem (fieldAdd pc off_op1),
      readMemory mem (fieldAdd fp off_op1), 0,
      readMemory mem (fieldAdd ap off_op1)] op1_src
    let isize := selIdx [1, 2, 1, 0, 1] op1_src
    some (op1, isize)

/-- `compute_res`: asserts `pc_update ≠ 3 ∧ pc_update ≤ 4 ∧ res_logic ≤ 2`,
then muxes `op1 / op1 + op0 / op1 * op0` by `res_logic` and that common
value (or the `Witness(F::zero())` undefined-behavior entries at indices
3 and 4) by `pc_update`. -/
def computeRes (pc_update res_logic op1 op0 : Nat) : Option Nat :=
  if pc_update = 3 ∨ 4 < pc_update ∨ 2 < res_logic then none
  else
    let case_0_1_2 := selIdx [op1, fieldAdd op1 op0, fieldMul op1 op0] res_logic
    some (selIdx [case_0_1_2, case_0_1_2, case_0_1_2, 0, 0] pc_update)

/-- `compute_dst`: select between the `ap`- and `fp`-relative reads by
`is_zero(dst_reg)`. -/
def computeDst (mem : List Nat) (ap fp off_dst dst_reg : Nat) : Nat :=
  let isZero := if dst_reg = 0 then 1 else 0
  let var_a := readMemory mem (fieldAdd ap off_dst)
  let var_b := readMemory mem (fieldAdd fp off_dst)
  if isZero = 1 then var_a else var_b

/-- `compute_next_pc`: re-asserts the `pc_update` range, then muxes the
five next-pc candidates (index 3 is the undefined-behavior zero witness;
index 4 is the conditional jump on `dst = 0`). -/
def computeNextPc (pc isize res dst op1 pc_update : Nat) : Option Nat :=
  if pc_update = 3 ∨ 4 < pc_update then none
  else
    let var_a := fieldAdd pc isize
    let var_b := fieldAdd pc op1
    let case_4 := if dst = 0 then var_a else var_b
    some (selIdx [fieldAdd pc isize, res, fieldAdd pc res, 0, case_4] pc_update)

/-- `compute_next_ap_fp`: asserts `ap_update ≤ 2 ∧ op_code ≤ 4 ∧
op_code ≠ 3`, emits the three `assert_is_const` consistency constraints
(which do not abort witness generation), then muxes `next_ap` and
`next_fp` by `op_code` (with the undefined-behavior zero witnesses at the
slots marked in the source). -/
def computeNextApFp (op_code res dst fp ap ap_update : Nat) :
    Option (Nat × Nat) :=
  if 2 < ap_update ∨ 4 < op_code ∨ op_code = 3 then none
  else
    let sw024 := selIdx [ap, fieldAdd ap res, fieldAdd ap 1] ap_update
    let var_a := fieldAdd ap 2
    let sel := if ap_update = 0 then 1 else 0
    let sw1 := if sel = 1 then var_a else 0
    let next_ap := selIdx [sw024, sw1, sw024, 0, sw024] op_code
    let next_fp := selIdx [fp, fieldAdd ap 2, dst, 0, fp] op_code
    some (next_ap, next_fp)

/-- The body of `state_transition` after instruction fetch and decode. -/
def transitionFromDecoded (mem : List Nat) (pc ap fp : Nat)
    (d : DecodedInstruction) : Option (Nat × Nat × Nat) :=
  let op0 := computeOp0 mem d.op0_reg ap fp d.off_op0
  match computeOp1AndSize mem d.op1_src op0 d.off_op1 fp ap pc with
  | none => none
  | some (op1, isize) =>
    match computeRes d.pc_update d.res_logic op1 op0 with
    | none => none
    | some res =>
      let dst := computeDst mem ap fp d.off_dst d.dst_reg
      match computeNextPc pc isize res dst op1 d.pc_update with
      | none => none
      | some next_pc =>
        match computeNextApFp d.op_code res dst fp ap d.ap_update with
        | none => none
        | some (next_ap, next_fp) => some (next_pc, next_ap, next_fp)

/-- `state_transition`: fetch `memory[pc]` via `select_from_idx`, decode,
then compute operands, result, destination and the next register state. -/
def stateTransition (mem : List Nat) (pc ap fp : Nat) : Option (Nat × Nat × Nat) :=
  transitionFromDecoded mem pc ap fp (decodeInstruction (selIdx mem pc))

/-! ### Reference interpreter for the toy VM (claim C4)

A direct functional interpreter of the instruction semantics, written with
pattern matches instead of the circuit's `select`/`select_from_idx`
multiplexer network: decode, compute `op0`/`op1`, compute `res` and `dst`,
then the next `pc`/`ap`/`fp`.  Undecodable field values are rejected; the
source's explicitly-marked undefined-behavior slots that remain reachable
for decodable instructions (`res` when `pc_update = 4`, `next_ap` when
`op_code = 1 ∧ ap_update ≠ 0`) take the deterministic value `0`, the zero
witness the circuit assigns there. -/

/-- Reference `op1` and instruction size. -/
def interpOp1AndSize (mem : List Nat) (op1_src op0 off_op1 fp ap pc : Nat) :
    Option (Nat × Nat) :=
  match op1_src with
  | 0 => some (readMemory mem (fieldAdd op0 off_op1), 1)
  | 1 => some (readMemory mem (fieldAdd pc off_op1), 2)
  | 2 => some (readMemory mem (fieldAdd fp off_op1), 1)
  | 4 => some (readMemory mem (fieldAdd ap off_op1), 1)
  | _ => none

/-- Reference `res`. -/
def interpRes (pc_update res_logic op1 op0 : Nat) : Option Nat :=
  if 2 < res_logic then none
  else
    match pc_update with
    | 0 | 1 | 2 =>
      some (match res_logic with
        | 0 => op1
        | 1 => fieldAdd op0 op1
        | _ => fieldMul op0 op1)
    | 4 => some 0
    | _ => none

/-- Reference `dst`. -/
def interpDst (mem : List Nat) (ap fp off_dst dst_reg : Nat) : Nat :=
  if dst_reg = 0 then readMemory mem (fieldAdd ap off_dst)
  else readMemory mem (fieldAdd fp off_dst)

/-- Reference next program counter. -/
def interpNextPc (pc isize res dst op1 pc_update : Nat) : Option Nat :=
  match pc_update with
  | 0 => some (fieldAdd pc isize)
  | 1 => some res
  | 2 => some (fieldAdd pc res)
  | 4 => some (if dst = 0 then fieldAdd pc isize else fieldAdd pc op1)
  | _ => none

/-- Reference next `ap` and `fp`. -/
def interpNextApFp (op_code res dst fp ap ap_update : Nat) : Option (Nat × Nat) :=
  if 2 < ap_update then none
  else
    let ap_std := match ap_update with
      | 0 => ap
      | 1 => fieldAdd ap res
      | _ => fieldAdd ap 1
    match op_code with
    | 0 => some (ap_std, fp)
    | 1 => some ((if ap_update = 0 then fieldAdd ap 2 else 0), fieldAdd ap 2)
    | 2 => some (ap_std, dst)
    | 4 => some (ap_std, fp)
    | _ => none

/-- The reference interpreter for a decoded instruction. -/
def interpFromDecoded (mem : List Nat) (pc ap fp : Nat)
    (d : DecodedInstruction) : Option (Nat × Nat × Nat) :=
  let op0 := if d.op0_reg = 1 then readMemory mem (fieldAdd fp d.off_op0)
    else readMemory mem (fieldAdd ap d.off_op0)
  match interpOp1AndSize mem d.op1_src op0 d.off_op1 fp ap pc with
  | none => none
  | some (op1, isize) =>
    match interpRes d.pc_update d.res_logic op1 op0 with
    | none => none
    | some res =>
      let dst := interpDst mem ap fp d.off_dst d.dst_reg
      match interpNextPc pc isize res dst op1 d.pc_update with
      | none => none
      | some next_pc =>
        match interpNextApFp d.op_code res dst fp ap d.ap_update with
        | none => none
        | some (next_ap, next_fp) => some (next_pc, next_ap, next_fp)

/-- Reference single-step interpreter: fetch, decode, execute. -/
def interpStep (mem : List Nat) (pc ap fp : Nat) : Option (Nat × Nat × Nat) :=
  interpFromDecoded mem pc ap fp (decodeInstruction (readMemory mem pc))

theorem computeDst_eq_interpDst (mem : List Nat) (ap fp off_dst dst_reg : Nat) :
    computeDst mem ap fp off_dst dst_reg = interpDst mem ap fp off_dst dst_reg := by
  unfold computeDst interpDst
  by_cases h : dst_reg = 0
  · simp [h]
  · simp [h]

theorem fieldAdd_comm (a b : Nat) : fieldAdd a b = fieldAdd b a := by
  unfold fieldAdd; rw [Nat.add_comm a b]

theorem fieldMul_comm (a b : Nat) : fieldMul a b = fieldMul b a := by
  unfold fieldMul; rw [Nat.mul_comm a b]

theorem op1Size_eq (mem : List Nat) (o1s op0 oo1 fp ap pc : Nat)
    (h : o1s = 0 ∨ o1s = 1 ∨ o1s = 2 ∨ o1s = 4) :
    computeOp1AndSize mem o1s op0 oo1 fp ap pc =
      interpOp1AndSize mem o1s op0 oo1 fp ap pc ∧
    ∃ v, interpOp1AndSize mem o1s op0 oo1 fp ap pc = some v := by
  rcases h with rfl | rfl | rfl | rfl <;> exact ⟨rfl, _, rfl⟩

theorem res_eq (pu rl op1 op0 : Nat)
    (h2 : pu = 0 ∨ pu = 1 ∨ pu = 2 ∨ pu = 4) (h3 : rl ≤ 2) :
    computeRes pu rl op1 op0 = interpRes pu rl op1 op0 ∧
    ∃ v, interpRes pu rl op1 op0 = some v := by
  have h3a : rl = 0 ∨ rl = 1 ∨ rl = 2 := by omega
  rcases h2 with rfl | rfl | rfl | rfl <;> rcases h3a with rfl | rfl | rfl <;>
    refine ⟨?_, _, rfl⟩ <;>
    simp only [computeRes, interpRes, selIdx, fieldAdd_comm op1 op0,
      fieldMul_comm op1 op0] <;> rfl

theorem nextPc_eq (pc isize res dst op1 pu : Nat)
    (h2 : pu = 0 ∨ pu = 1 ∨ pu = 2 ∨ pu = 4) :
    computeNextPc pc isize res dst op1 pu = interpNextPc pc isize res dst op1 pu ∧
    ∃ v, interpNextPc pc isize res dst op1 pu = some v := by
  rcases h2 with rfl | rfl | rfl | rfl <;> exact ⟨rfl, _, rfl⟩

theorem nextApFp_eq (oc res dst fp ap au : Nat)
    (h4 : au ≤ 2) (h5 : oc = 0 ∨ oc = 1 ∨ oc = 2 ∨ oc = 4) :
    computeNextApFp oc res dst fp ap au = interpNextApFp oc res dst fp ap au ∧
    ∃ v, interpNextApFp oc res dst fp ap au = some v := by
  have h4a : au = 0 ∨ au = 1 ∨ au = 2 := by omega
  rcases h5 with rfl | rfl | rfl | rfl <;> rcases h4a with rfl | rfl | rfl <;>
    exact ⟨rfl, _, rfl⟩

theorem transitionFromDecoded_eq (mem : List Nat) (pc ap fp : Nat)
    (d : DecodedInstruction)
    (h1 : d.op1_src = 0 ∨ d.op1_src = 1 ∨ d.op1_src = 2 ∨ d.op1_src = 4)
    (h2 : d.pc_update = 0 ∨ d.pc_update = 1 ∨ d.pc_update = 2 ∨ d.pc_update = 4)
    (h3 : d.res_logic ≤ 2) (h4 : d.ap_update ≤ 2)
    (h5 : d.op_code = 0 ∨ d.op_code = 1 ∨ d.op_code = 2 ∨ d.op_code = 4) :
    ∃ next, transitionFromDecoded mem pc ap fp d = some next ∧
      interpFromDecoded mem pc ap fp d = some next := by
  obtain ⟨od, oo0, oo1, dr, o0r, o1s, rl, pu, au, oc⟩ := d
  dsimp only at h1 h2 h3 h4 h5
  simp only [transitionFromDecoded, interpFromDecoded, computeOp0]
  generalize (if o0r = 1 then readMemory mem (fieldAdd fp oo0)
    else readMemory mem (fieldAdd ap oo0)) = op0
  obtain ⟨heq1, ⟨op1, isize⟩, hv1⟩ := op1Size_eq mem o1s op0 oo1 fp ap pc h1
  rw [heq1, hv1]
  dsimp only
  obtain ⟨heq2, res, hv2⟩ := res_eq pu rl op1 op0 h2 h3
  rw [heq2, hv2]
  dsimp only
  rw [computeDst_eq_interpDst]
  generalize interpDst mem ap fp od dr = dst
  obtain ⟨heq3, npc, hv3⟩ := nextPc_eq pc isize res dst op1 pu h2
  rw [heq3, hv3]
  dsimp only
  obtain ⟨heq4, ⟨nap, nfp⟩, hv4⟩ := nextApFp_eq oc res dst fp ap au h4 h5
  rw [heq4, hv4]
  exact ⟨(npc, nap, nfp), rfl, rfl⟩

/-- **C4.**  For every state whose fetched instruction decodes to field
values in their defined ranges (`op1_src, pc_update, op_code ∈ {0,1,2,4}`,
`res_logic ≤ 2`, `ap_update ≤ 2`), `state_transition` produces exactly one
result, and it coincides with the reference interpreter's
`(next_pc, next_ap, next_fp)`. -/
theorem stateTransition_matches_interpreter (mem : List Nat) (pc ap fp : Nat)
    (h1 : (decodeInstruction (selIdx mem pc)).op1_src = 0 ∨
      (decodeInstruction (selIdx mem pc)).op1_src = 1 ∨
      (decodeInstruction (selIdx mem pc)).op1_src = 2 ∨
      (decodeInstruction (selIdx mem pc)).op1_src = 4)
    (h2 : (decodeInstruction (selIdx mem pc)).pc_update = 0 ∨
      (decodeInstruction (selIdx mem pc)).pc_update = 1 ∨
      (decodeInstruction (selIdx mem pc)).pc_update = 2 ∨
      (decodeInstruction (selIdx mem pc)).pc_update = 4)
    (h3 : (decodeInstruction (selIdx mem pc)).res_logic ≤ 2)
    (h4 : (decodeInstruction (selIdx mem pc)).ap_update ≤ 2)
    (h5 : (decodeInstruction (selIdx mem pc)).op_code = 0 ∨
      (decodeInstruction (selIdx mem pc)).op_code = 1 ∨
      (decodeInstruction (selIdx mem pc)).op_code = 2 ∨
      (decodeInstruction (selIdx mem pc)).op_code = 4) :
    ∃ next, stateTransition mem pc ap fp = some next ∧
      interpStep mem pc ap fp = some next :=
  transitionFromDecoded_eq mem pc ap fp _ h1 h2 h3 h4 h5

theorem stateTransition_matches_interpreter_witness :
    ((decodeInstruction (selIdx [0] 0)).op1_src = 0 ∨
      (decodeInstruction (selIdx [0] 0)).op1_src = 1 ∨
      (decodeInstruction (selIdx [0] 0)).op1_src = 2 ∨
      (decodeInstruction (selIdx [0] 0)).op1_src = 4) ∧
    (decodeInstruction (selIdx [0] 0)).res_logic ≤ 2 ∧
    (∃ next, stateTransition [0] 0 5 7 = some next ∧
      interpStep [0] 0 5 7 = some next) :=
  ⟨by decide, by decide,
    stateTransition_matches_interpreter [0] 0 5 7 (by decide) (by decide)
      (by decide) (by decide) (by decide)⟩

/-! ### Runtime assertions abort witness generation (claim C10) -/

theorem transitionFromDecoded_none (mem : List Nat) (pc ap fp : Nat)
    (d : DecodedInstruction)
    (hbad : (d.op1_src = 3 ∨ 4 < d.op1_src) ∨ (d.pc_update = 3 ∨ 4 < d.pc_update) ∨
      2 < d.res_logic ∨ 2 < d.ap_update ∨ (d.op_code = 3 ∨ 4 < d.op_code)) :
    transitionFromDecoded mem pc ap fp d = none := by
  obtain ⟨od, oo0, oo1, dr, o0r, o1s, rl, pu, au, oc⟩ := d
  dsimp only at hbad
  simp only [transitionFromDecoded, computeOp0]
  generalize (if o0r = 1 then readMemory mem (fieldAdd fp oo0)
    else readMemory mem (fieldAdd ap oo0)) = op0
  rcases hbad with h | h | h | h | h
  · rw [show computeOp1AndSize mem o1s op0 oo1 fp ap pc = none from by
      unfold computeOp1AndSize; rw [if_pos h]]
  · cases hv1 : computeOp1AndSize mem o1s op0 oo1 fp ap pc with
    | none => rfl
    | some v =>
      obtain ⟨op1, isize⟩ := v
      dsimp only
      rw [show computeRes pu rl op1 op0 = none from by
        unfold computeRes; rw [if_pos (by omega)]]
  · cases hv1 : computeOp1AndSize mem o1s op0 oo1 fp ap pc with
    | none => rfl
    | some v =>
      obtain ⟨op1, isize⟩ := v
      dsimp only
      rw [show computeRes pu rl op1 op0 = none from by
        unfold computeRes; rw [if_pos (by omega)]]
  · cases hv1 : computeOp1AndSize mem o1s op0 oo1 fp ap pc with
    | none => rfl
    | some v =>
      obtain ⟨op1, isize⟩ := v
      dsimp only
      cases hv2 : computeRes pu rl op1 op0 with
      | none => rfl
      | some res =>
        dsimp only
        cases hv3 : computeNextPc pc isize res (computeDst mem ap fp od dr) op1 pu with
        | none => rfl
        | some npc =>
          dsimp only
          rw [show computeNextApFp oc res (computeDst mem ap fp od dr) fp ap au = none from by
            unfold computeNextApFp; rw [if_pos (by omega)]]
  · cases hv1 : computeOp1AndSize mem o1s op0 oo1 fp ap pc with
    | none => rfl
    | some v =>
      obtain ⟨op1, isize⟩ := v
      dsimp only
      cases hv2 : computeRes pu rl op1 op0 with
      | none => rfl
      | some res =>
        dsimp only
        cases hv3 : computeNextPc pc isize res (computeDst mem ap fp od dr) op1 pu with
        | none => rfl
        | some npc =>
          dsimp only
          rw [show computeNextApFp oc res (computeDst mem ap fp od dr) fp ap au = none from by
            unfold computeNextApFp; rw [if_pos (by omega)]]

/-- **C10.**  When the fetched instruction decodes to any field value
outside its defined range (`op1_src = 3` or `> 4`, `pc_update = 3` or `> 4`,
`res_logic > 2`, `ap_update > 2`, `op_code = 3` or `> 4`), the runtime
`assert!` in the corresponding compute function panics and witness
generation aborts (`none`): no result state is produced, so the zero
witnesses of the undefined-behavior multiplexer slots are never selected
during honest witness generation. -/
theorem stateTransition_aborts_on_undecodable (mem : List Nat) (pc ap fp : Nat)
    (hbad : ((decodeInstruction (selIdx mem pc)).op1_src = 3 ∨
        4 < (decodeInstruction (selIdx mem pc)).op1_src) ∨
      ((decodeInstruction (selIdx mem pc)).pc_update = 3 ∨
        4 < (decodeInstruction (selIdx mem pc)).pc_update) ∨
      2 < (decodeInstruction (selIdx mem pc)).res_logic ∨
      2 < (decodeInstruction (selIdx mem pc)).ap_update ∨
      ((decodeInstruction (selIdx mem pc)).op_code = 3 ∨
        4 < (decodeInstruction (selIdx mem pc)).op_code)) :
    stateTransition mem pc ap fp = none :=
  transitionFromDecoded_none mem pc ap fp _ hbad

theorem stateTransition_aborts_on_undecodable_witness :
    (((decodeInstruction (selIdx [3 * 2 ^ 50] 0)).op1_src = 3 ∨
        4 < (decodeInstruction (selIdx [3 * 2 ^ 50] 0)).op1_src) ∨
      ((decodeInstruction (selIdx [3 * 2 ^ 50] 0)).pc_update = 3 ∨
        4 < (decodeInstruction (selIdx [3 * 2 ^ 50] 0)).pc_update) ∨
      2 < (decodeInstruction (selIdx [3 * 2 ^ 50] 0)).res_logic ∨
      2 < (decodeInstruction (selIdx [3 * 2 ^ 50] 0)).ap_update ∨
      ((decodeInstruction (selIdx [3 * 2 ^ 50] 0)).op_code = 3 ∨
        4 < (decodeInstruction (selIdx [3 * 2 ^ 50] 0)).op_code)) ∧
    stateTransition [3 * 2 ^ 50] 0 11 13 = none :=
  ⟨by decide, stateTransition_aborts_on_undecodable [3 * 2 ^ 50] 0 11 13 (by decide)⟩

/-! ## `examples/fixed_len_keccak.rs` / `examples/var_len_keccak.rs`

The `KeccakChip` itself lives in the external `axiom_eth` crate, so only
its contract is modelled.  The repository code loads the bytes (and the
length), queries the chip for the output witnesses, `assert_eq!`s every
output byte against the reference `ethers_core::utils::keccak256` digest of
the (truncated) input, and must return the phase-1 callback closure that
`run_eth`/`EthCircuitBuilder` executes in SecondPhase to actually constrain
the hash. -/

/-- The mandatory SecondPhase callback value: the examples' return type
forces every caller to produce one, which `EthCircuitBuilder` executes
after the challenge is drawn to finalize the keccak constraints. -/
inductive Phase1Callback
  | callback

/-- Modelled from the spec: the output bytes of the external
`KeccakChip::keccak_var_len` gadget (code absent from `src/`) — the
constrained output equals the reference hash applied to the input
truncated to `len` bytes, `H (bytes.take len)`. -/
def keccakChipVarLen (H : List Nat → List Nat) (bytes : List Nat) (len : Nat) :
    List Nat :=
  H (List.take len bytes)

/-- Modelled from the spec: the output bytes of the external
`KeccakChip::keccak_fixed_len` gadget — the reference hash of the whole
input, `H bytes`. -/
def keccakChipFixedLen (H : List Nat → List Nat) (bytes : List Nat) : List Nat :=
  H bytes

/-- Witness generation of `compute_var_len_keccak`, for a chip with output
function `chip` and reference hash `H`: slice `padded_bytes[..len]`
(panicking when `len` exceeds the padded length), fetch the chip output,
`assert_eq!` it byte-wise against `H` of the truncated input, and return
the output together with the mandatory phase-1 callback. -/
def computeVarLenKeccak (chip : List Nat → Nat → List Nat)
    (H : List Nat → List Nat) (paddedBytes : List Nat) (len : Nat) :
    Option (List Nat × Phase1Callback) :=
  if len ≤ paddedBytes.length then
    let out := chip paddedBytes len
    if out = H (List.take len paddedBytes) then some (out, .callback) else none
  else none

/-- Witness generation of `compute_fixed_len_keccak`. -/
def computeFixedLenKeccak (chip : List Nat → List Nat)
    (H : List Nat → List Nat) (bytes : List Nat) :
    Option (List Nat × Phase1Callback) :=
  let out := chip bytes
  if out = H bytes then some (out, .callback) else none

/-- **C5.**  Whenever witness generation of the two keccak examples
succeeds, the produced (and, in SecondPhase, constrained) output bytes are
exactly the reference digest of the — possibly truncated-by-`len` — input;
witness generation succeeds only when the chip output matches the
reference hash (the `assert_eq!` loop), and with the spec-modelled chip it
does succeed and returns the mandatory phase-1 callback. -/
theorem keccak_output_matches_reference (chipV : List Nat → Nat → List Nat)
    (chipF : List Nat → List Nat) (H : List Nat → List Nat)
    (bytes : List Nat) (len : Nat) (hlen : len ≤ bytes.length) :
    (∀ out cb, computeVarLenKeccak chipV H bytes len = some (out, cb) →
      out = H (List.take len bytes)) ∧
    (∀ out cb, computeFixedLenKeccak chipF H bytes = some (out, cb) →
      out = H bytes) ∧
    computeVarLenKeccak (keccakChipVarLen H) H bytes len =
      some (H (List.take len bytes), .callback) ∧
    computeFixedLenKeccak (keccakChipFixedLen H) H bytes =
      some (H bytes, .callback) := by
  refine ⟨?_, ?_, ?_, ?_⟩
  · intro out cb h
    unfold computeVarLenKeccak at h
    rw [if_pos hlen] at h
    by_cases hc : chipV bytes len = H (List.take len bytes)
    · rw [if_pos hc] at h
      simp only [Option.some.injEq, Prod.mk.injEq] at h
      rw [← h.1]
      exact hc
    · rw [if_neg hc] at h
      exact absurd h (by simp)
  · intro out cb h
    unfold computeFixedLenKeccak at h
    by_cases hc : chipF bytes = H bytes
    · rw [if_pos hc] at h
      simp only [Option.some.injEq, Prod.mk.injEq] at h
      rw [← h.1]
      exact hc
    · rw [if_neg hc] at h
      exact absurd h (by simp)
  · unfold computeVarLenKeccak keccakChipVarLen
    rw [if_pos hlen, if_pos rfl]
  · unfold computeFixedLenKeccak keccakChipFixedLen
    rw [if_pos rfl]

theorem keccak_output_matches_reference_witness :
    2 ≤ [1, 2, 3].length ∧
      ((∀ out cb,
          computeVarLenKeccak (fun _ _ => [9]) (fun l => [l.length]) [1, 2, 3] 2 =
            some (out, cb) → out = (fun l : List Nat => [l.length]) (List.take 2 [1, 2, 3])) ∧
        (∀ out cb,
          computeFixedLenKeccak (fun _ => [9]) (fun l => [l.length]) [1, 2, 3] =
            some (out, cb) → out = (fun l : List Nat => [l.length]) [1, 2, 3]) ∧
        computeVarLenKeccak (keccakChipVarLen (fun l => [l.length]))
            (fun l => [l.length]) [1, 2, 3] 2 =
          some ((fun l : List Nat => [l.length]) (List.take 2 [1, 2, 3]), .callback) ∧
        computeFixedLenKeccak (keccakChipFixedLen (fun l => [l.length]))
            (fun l => [l.length]) [1, 2, 3] =
          some ((fun l : List Nat => [l.length]) [1, 2, 3], .callback)) :=
  ⟨by decide,
    keccak_output_matches_reference (fun _ _ => [9]) (fun _ => [9])
      (fun l => [l.length]) [1, 2, 3] 2 (by decide)⟩

/-! ## `examples/merkletree.rs` (`verify_merkle_proof`)

The example loads 8 field elements `[root, leaf, n1, b1, n2, b2, n3, b3]`
(`PROOF_SZ = 3` levels), exposes `root` and `leaf`, recomputes the root by
three rounds of ordering-by-bit followed by a Poseidon 2-to-1 squeeze
(external `PoseidonChip`, modelled from the spec as an opaque compression
function `H2`), exposes the recomputed hash, then calls
`gate.is_equal(ctx, cur_hash, tree_root)` and **discards** the resulting
boolean: it is never constrained to equal `1` and never exposed — the root
comparison only happens in a `println!`. -/

/-- Intermediate cells of one proof level (the `xor`/`mul`/`add` gate
outputs and the level's Poseidon squeeze output). -/
structure MerkleLevelCells where
  b1 : Nat
  fCh : Nat
  fNd : Nat
  firstIn : Nat
  sCh : Nat
  sNd : Nat
  sndIn : Nat
  out : Nat

/-- `gate.xor`: `a + b - 2ab` in `Fr`. -/
def fieldXor (a b : Nat) : Nat := fieldSub (fieldAdd a b) (fieldMul 2 (fieldMul a b))

/-- The constraints emitted for one level of `verify_merkle_proof`:
`b1 = xor(b0, 1)`, the four products, the two sums, and the Poseidon
squeeze (modelled from the spec: the hash gadget constrains its output to
be the compression `H2` of the two absorbed cells). -/
def merkleLevelConstraints (H2 : Nat → Nat → Nat) (cur node b0 : Nat)
    (c : MerkleLevelCells) : Prop :=
  c.b1 = fieldXor b0 1 ∧
  c.fCh = fieldMul c.b1 cur ∧
  c.fNd = fieldMul b0 node ∧
  c.firstIn = fieldAdd c.fCh c.fNd ∧
  c.sCh = fieldMul b0 cur ∧
  c.sNd = fieldMul c.b1 node ∧
  c.sndIn = fieldAdd c.sCh c.sNd ∧
  c.out = H2 c.firstIn c.sndIn

/-- All cells of the `verify_merkle_proof` trace that are not inputs:
three levels plus the three cells of the final (discarded) `is_equal`
gadget (`diff = cur_hash - root`, the inverse witness, the boolean out). -/
structure MerkleCells where
  l1 : MerkleLevelCells
  l2 : MerkleLevelCells
  l3 : MerkleLevelCells
  eqDiff : Nat
  eqInv : Nat
  eqOut : Nat

/-- Every constraint emitted by `verify_merkle_proof` on inputs
`[root, leaf, n1, b1, n2, b2, n3, b3]` and cell assignment `c`.  The final
`is_equal` emits `diff = cur - root`, `diff·inv + out = 1` and
`diff·out = 0`; **no constraint forces `eqOut = 1`** and `eqOut` is not
among the public values. -/
def merkleConstraints (H2 : Nat → Nat → Nat)
    (root leaf n1 b1in n2 b2in n3 b3in : Nat) (c : MerkleCells) : Prop :=
  merkleLevelConstraints H2 leaf n1 b1in c.l1 ∧
  merkleLevelConstraints H2 c.l1.out n2 b2in c.l2 ∧
  merkleLevelConstraints H2 c.l2.out n3 b3in c.l3 ∧
  c.eqDiff = fieldSub c.l3.out root ∧
  fieldMulAdd c.eqDiff c.eqInv c.eqOut = 1 % p ∧
  fieldMul c.eqDiff c.eqOut = 0

/-- Honest witness generation for one level. -/
def merkleLevelWitness (H2 : Nat → Nat → Nat) (cur node b0 : Nat) :
    MerkleLevelCells :=
  let b1 := fieldXor b0 1
  let fCh := fieldMul b1 cur
  let fNd := fieldMul b0 node
  let firstIn := fieldAdd fCh fNd
  let sCh := fieldMul b0 cur
  let sNd := fieldMul b1 node
  let sndIn := fieldAdd sCh sNd
  { b1 := b1, fCh := fCh, fNd := fNd, firstIn := firstIn,
    sCh := sCh, sNd := sNd, sndIn := sndIn, out := H2 firstIn sndIn }

/-- The recomputed root (the final `cur_hash`). -/
def merkleRecompute (H2 : Nat → Nat → Nat) (leaf n1 b1in n2 b2in n3 b3in : Nat) :
    Nat :=
  (merkleLevelWitness H2
    (merkleLevelWitness H2
      (merkleLevelWitness H2 leaf n1 b1in).out n2 b2in).out n3 b3in).out

/-- Honest witness generation of the whole trace.  `inv` is the field
inverse of `cur_hash - root` computed by the external field implementation
(`is_zero` assigns the inverse-or-zero witness). -/
def merkleWitness (H2 : Nat → Nat → Nat)
    (root leaf n1 b1in n2 b2in n3 b3in inv : Nat) : MerkleCells :=
  let L1 := merkleLevelWitness H2 leaf n1 b1in
  let L2 := merkleLevelWitness H2 L1.out n2 b2in
  let L3 := merkleLevelWitness H2 L2.out n3 b3in
  let diff := fieldSub L3.out root
  { l1 := L1, l2 := L2, l3 := L3, eqDiff := diff,
    eqInv := if diff = 0 then 0 else inv,
    eqOut := if diff = 0 then 1 else 0 }

/-- The public values, in `make_public` order: the supplied root, the
leaf, and the recomputed root.  The `is_equal` output bit is absent. -/
def merklePublics (H2 : Nat → Nat → Nat)
    (root leaf n1 b1in n2 b2in n3 b3in : Nat) : List Nat :=
  [root, leaf, merkleRecompute H2 leaf n1 b1in n2 b2in n3 b3in]

/-- **C8.**  For every input — in particular whenever the recomputed root
differs from the supplied `tree_root` — the honest assignment satisfies
every constraint emitted by `verify_merkle_proof`, and the publics are
just `[root, leaf, recomputed]`: the discarded `is_equal` bit is neither
constrained to `1` nor exposed, so a mismatched root is never rejected.
The hypothesis supplies the field inverse of `cur_hash - root` (field
inversion is provided by the external field implementation). -/
theorem merkle_never_rejects (H2 : Nat → Nat → Nat)
    (root leaf n1 b1in n2 b2in n3 b3in inv : Nat)
    (hinv : fieldSub (merkleRecompute H2 leaf n1 b1in n2 b2in n3 b3in) root = 0 ∨
      fieldMul (fieldSub (merkleRecompute H2 leaf n1 b1in n2 b2in n3 b3in) root) inv = 1) :
    merkleConstraints H2 root leaf n1 b1in n2 b2in n3 b3in
        (merkleWitness H2 root leaf n1 b1in n2 b2in n3 b3in inv) ∧
      merklePublics H2 root leaf n1 b1in n2 b2in n3 b3in =
        [root, leaf, merkleRecompute H2 leaf n1 b1in n2 b2in n3 b3in] := by
  refine ⟨⟨⟨rfl, rfl, rfl, rfl, rfl, rfl, rfl, rfl⟩,
    ⟨rfl, rfl, rfl, rfl, rfl, rfl, rfl, rfl⟩,
    ⟨rfl, rfl, rfl, rfl, rfl, rfl, rfl, rfl⟩, rfl, ?_, ?_⟩, rfl⟩
  · show fieldMulAdd _ _ _ = 1 % p
    unfold merkleWitness
    dsimp only
    rcases hinv with h0 | h1
    · unfold merkleRecompute at h0
      rw [h0, if_pos rfl, if_pos rfl]
      unfold fieldMulAdd
      rw [Nat.zero_mul, Nat.zero_add]
    · by_cases hd : fieldSub
        (merkleLevelWitness H2 (merkleLevelWitness H2
          (merkleLevelWitness H2 leaf n1 b1in).out n2 b2in).out n3 b3in).out root = 0
      · rw [if_pos hd, if_pos hd, hd]
        unfold fieldMulAdd
        rw [Nat.zero_mul, Nat.zero_add]
      · rw [if_neg hd, if_neg hd]
        unfold merkleRecompute at h1
        unfold fieldMulAdd
        rw [Nat.add_zero]
        unfold fieldMul at h1
        rw [h1]
        exact (Nat.mod_eq_of_lt one_lt_p).symm
  · show fieldMul _ _ = 0
    unfold merkleWitness
    dsimp only
    by_cases hd : fieldSub
      (merkleLevelWitness H2 (merkleLevelWitness H2
        (merkleLevelWitness H2 leaf n1 b1in).out n2 b2in).out n3 b3in).out root = 0
    · rw [if_pos hd, hd]
      unfold fieldMul
      rw [Nat.zero_mul, Nat.zero_mod]
    · rw [if_neg hd]
      unfold fieldMul
      rw [Nat.mul_zero, Nat.zero_mod]

theorem merkle_never_rejects_witness :
    (fieldSub (merkleRecompute (fun _ _ => 5) 0 0 0 0 0 0 0) 7 = 0 ∨
      fieldMul (fieldSub (merkleRecompute (fun _ _ => 5) 0 0 0 0 0 0 0) 7)
        ((p - 1) / 2) = 1) ∧
    merkleRecompute (fun _ _ => 5) 0 0 0 0 0 0 0 ≠ 7 ∧
    (merkleConstraints (fun _ _ => 5) 7 0 0 0 0 0 0 0
        (merkleWitness (fun _ _ => 5) 7 0 0 0 0 0 0 0 ((p - 1) / 2)) ∧
      merklePublics (fun _ _ => 5) 7 0 0 0 0 0 0 0 =
        [7, 0, merkleRecompute (fun _ _ => 5) 0 0 0 0 0 0 0]) :=
  ⟨Or.inr (by decide), by decide,
    merkle_never_rejects (fun _ _ => 5) 7 0 0 0 0 0 0 0 ((p - 1) / 2)
      (Or.inr (by decide))⟩

end Halo2Scaffold
